import Mathlib

/-!
Verification development for the cnpmcore `PackageVersionFileService`
(src/app/core/service/PackageVersionFileService.ts).

The service is embedded shallowly: the stateful TypeScript methods become
Lean functions of type `St → Except ErrCode α × St`, where `St` models the
file index, the blob store event log, the local filesystem, and the set of
live temporary directories.  External collaborators (the repositories, the
tar library, `fs`, `encodeURI`, `path.dirname`/`basename`) are modelled
either faithfully from their documented semantics or, for repository code
that is not part of this source tree, from the specification's interface
contracts (marked `Modelled from the spec:` below).
-/

namespace PkgVerFileSvc

/-- Stat and integrity information of one file on disk.  `calculateIntegrity`
is a pure function of the file bytes (spec section 6), so a file's byte
content is represented by its observable size/shasum/integrity triple. -/
structure FileData where
  size : Nat
  shasum : String
  integrity : String
deriving DecidableEq, Repr

/-- Type of one tar archive entry, as reported by the tar library
(`entry.type`): only `File` entries are materialized. -/
inductive TarEntryType where
  | file
  | directory
  | other
deriving DecidableEq, Repr

/-- One member of a tarball: its raw path inside the archive, its entry
type and its content data. -/
structure TarEntry where
  path : String
  type : TarEntryType
  data : FileData
deriving DecidableEq, Repr

/-- A tarball is either structurally valid, carrying its ordered member
list, or corrupt (truncated/invalid), in which case the tar library raises
an error with code `TAR_BAD_ARCHIVE`. -/
inductive Tarball where
  | valid (entries : List TarEntry)
  | corrupt
deriving DecidableEq, Repr

/-- Error codes visible to the service: the tar library's bad-archive code,
the database duplicate-key code, a missing-file code for `fs.stat`, and a
catch-all for any other I/O or storage failure. -/
inductive ErrCode where
  | TAR_BAD_ARCHIVE
  | ER_DUP_ENTRY
  | ENOENT
  | other (s : String)
deriving DecidableEq, Repr

/-- Package entity: identified by `packageId`, with a full name used for the
temporary-directory name. -/
structure Package where
  packageId : String
  fullname : String
deriving DecidableEq, Repr

/-- PackageVersion entity: the version whose files are synced. -/
structure PackageVersion where
  packageVersionId : String
  packageId : String
  version : String
  publishTime : Nat
deriving DecidableEq, Repr

/-- Modelled from the spec: the content blob record produced by
`pkg.createPackageVersionFile(distPath, version, info)` (entity code outside
this source tree).  Its external path key combines the percent-encoded path
with the version string; size/shasum/integrity come from the local file. -/
structure Dist where
  path : String
  version : String
  size : Nat
  shasum : String
  integrity : String
deriving DecidableEq, Repr

/-- The file index entry (`PackageVersionFile` entity): one row per
extracted file, keyed by the unique (packageVersionId, directory, name)
tuple. -/
structure PackageVersionFile where
  packageVersionId : String
  directory : String
  name : String
  dist : Dist
  contentType : String
  mtime : Nat
deriving DecidableEq, Repr

/-- Observable effects of one service run, recorded chronologically. -/
inductive Event where
  | download (tarFile : String)
  | extract (tmpdir : String)
  | blobWrite (distPath : String) (version : String)
  | indexInsert (packageVersionId : String) (directory : String) (name : String)
  | readmeSave (packageVersionId : String) (file : String)
  | rmWarnLog
deriving DecidableEq, Repr

/-- Mutable world state threaded through the service: the file index (in
insertion order), the local filesystem (later writes shadow earlier ones),
the set of live temporary directories, and the chronological event log. -/
structure St where
  index : List PackageVersionFile
  fsFiles : List (String × FileData)
  tempDirs : List String
  events : List Event
deriving DecidableEq, Repr

/-- Environment of one run: the package repository content, the bytes behind
the version's tar dist, injectable faults for the download, the index
insert and the cleanup `fs.rm` calls, the MIME lookup table, and the
values of `randomUUID()` and `config.dataDir`. -/
structure Env where
  packages : List (String × Package)
  tarball : Tarball
  downloadFault : Option ErrCode
  insertFault : Option ErrCode
  rmFault : Bool
  mime : String → String
  uuid : String
  dataDir : String

/-! ### Node `path.posix` dirname/basename, transliterated from Node's
`lib/path.js` loop structure. -/

/-- Scan for Node `posix.dirname`: walk indices from `i` down to 1 looking
for the last slash that is followed by a non-slash character; `matched`
is Node's `matchedSlash` flag. -/
def dirEndAux (s : List Char) : Nat → Bool → Option Nat
  | 0, _ => none
  | i + 1, matched =>
    if s.getD (i + 1) 'a' = '/' then
      if matched then dirEndAux s i matched else some (i + 1)
    else
      dirEndAux s i false

/-- Node `path.posix.dirname`. -/
def posixDirname (p : String) : String :=
  let s := p.data
  if s.isEmpty then "."
  else
    let hasRoot := s.getD 0 'a' = '/'
    match dirEndAux s (s.length - 1) true with
    | none => if hasRoot then "/" else "."
    | some e => if hasRoot && e = 1 then "//" else ⟨s.take e⟩

/-- Scan for Node `posix.basename`: returns the `(start, end)` slice
bounds; `i` is one past the index under examination. -/
def baseAux (s : List Char) : Nat → Bool → Option Nat → Nat × Option Nat
  | 0, _, e => (0, e)
  | i + 1, matched, e =>
    if s.getD i 'a' = '/' then
      if matched then baseAux s i matched e else (i + 1, e)
    else
      if e.isNone then baseAux s i false (some (i + 1))
      else baseAux s i matched e

/-- Node `path.posix.basename` (no extension argument). -/
def posixBasename (p : String) : String :=
  let s := p.data
  match baseAux s s.length true none with
  | (_, none) => ""
  | (st, some e) => ⟨(s.take e).drop st⟩

/-- The service's `#getDirectoryAndName`: split a path into POSIX
directory and base name. -/
def getDirectoryAndName (path : String) : String × String :=
  (posixDirname path, posixBasename path)

/-! ### JS string helpers used by the service. -/

/-- Everything after the first `/` (empty when there is none). -/
def stripFirstSegmentAux : List Char → List Char
  | [] => []
  | c :: rest => if c = '/' then rest else stripFirstSegmentAux rest

/-- JS `entry.path.split('/').slice(1).join('/')`: drop the first path
segment (the `package/` wrapper directory).  Splitting on `/`, dropping the
first group and re-joining with `/` is exactly "everything after the first
slash", and the empty string when the path has no slash. -/
def stripFirstSegment (p : String) : String :=
  ⟨stripFirstSegmentAux p.data⟩

/-- Whether the pattern is an initial run of the character list. -/
def leadsWith : List Char → List Char → Bool
  | [], _ => true
  | _ :: _, [] => false
  | a :: as, b :: bs => a == b && leadsWith as bs

/-- Whether the pattern occurs contiguously anywhere in the list. -/
def hasSub (pat : List Char) : List Char → Bool
  | [] => leadsWith pat []
  | c :: rest => leadsWith pat (c :: rest) || hasSub pat rest

/-- JS `entry.path.includes('/./')`: the hidden-directory test. -/
def containsHiddenDir (p : String) : Bool :=
  hasSub "/./".data p.data

/-- Replace the first `/` by `_`. -/
def replaceFirstSlashAux : List Char → List Char
  | [] => []
  | c :: rest => if c = '/' then '_' :: rest else c :: replaceFirstSlashAux rest

/-- JS `fullname.replace('/', '_')` with a string pattern replaces only the
first occurrence. -/
def replaceFirstSlash (p : String) : String :=
  ⟨replaceFirstSlashAux p.data⟩

/-- Node `path.join(base, p)` restricted to the shapes the service uses
(no `..` or `.` segments to collapse). -/
def joinPath (base p : String) : String :=
  if p.data.headD ' ' = '/' then base ++ p else base ++ "/" ++ p

/-! ### JS `encodeURI`. -/

/-- Characters `encodeURI` leaves unescaped: ASCII alphanumerics, the
unreserved marks, and the reserved characters. -/
def encodeURIAllowed (c : Char) : Bool :=
  c.isAlphanum ||
    c ∈ ['-', '_', '.', '!', '~', '*', Char.ofNat 39, '(', ')',
         ';', '/', '?', ':', '@', '&', '=', '+', '$', ',', '#']

/-- UTF-8 bytes of one Unicode scalar value. -/
def utf8Bytes (c : Char) : List Nat :=
  let n := c.toNat
  if n < 0x80 then [n]
  else if n < 0x800 then
    [0xC0 ||| (n >>> 6), 0x80 ||| (n &&& 0x3F)]
  else if n < 0x10000 then
    [0xE0 ||| (n >>> 12), 0x80 ||| ((n >>> 6) &&& 0x3F), 0x80 ||| (n &&& 0x3F)]
  else
    [0xF0 ||| (n >>> 18), 0x80 ||| ((n >>> 12) &&& 0x3F),
     0x80 ||| ((n >>> 6) &&& 0x3F), 0x80 ||| (n &&& 0x3F)]

/-- Upper-case hexadecimal digit. -/
def hexDigit (n : Nat) : Char :=
  "0123456789ABCDEF".data.getD n '0'

/-- Percent-encode one byte as `%XY`. -/
def percentByte (n : Nat) : String :=
  "%" ++ String.singleton (hexDigit (n / 16)) ++ String.singleton (hexDigit (n % 16))

/-- JS `encodeURI`: keep allowed characters, percent-encode the UTF-8
bytes of everything else. -/
def encodeURI (s : String) : String :=
  s.data.foldl
    (fun acc c =>
      acc ++ (if encodeURIAllowed c then String.singleton c
              else String.join ((utf8Bytes c).map percentByte)))
    ""

/-! ### Collaborator repositories.  Modelled from the spec's interface
contracts (section 6); the repository implementations are outside this
source tree. -/

/-- Modelled from the spec: `findPackageByPackageId(id) -> Package | absent`. -/
def findPackageByPackageId (env : Env) (packageId : String) : Option Package :=
  (env.packages.find? (fun kv => kv.1 == packageId)).map Prod.snd

/-- Matcher for the unique (packageVersionId, directory, name) tuple. -/
def pvfMatch (vid d n : String) (f : PackageVersionFile) : Bool :=
  f.packageVersionId == vid && f.directory == d && f.name == n

/-- Modelled from the spec: the index lookup
`findPackageVersionFile(versionId, directory, name)`. -/
def findPackageVersionFile (st : St) (vid d n : String) : Option PackageVersionFile :=
  st.index.find? (pvfMatch vid d n)

/-- Modelled from the spec: `hasPackageVersionFiles(versionId)` — whether
the index has any entry for the version. -/
def hasPackageVersionFiles (st : St) (vid : String) : Bool :=
  st.index.any (fun f => f.packageVersionId == vid)

/-- Modelled from the spec: the directory listing query of the index. -/
def listPackageVersionFilesRepo (st : St) (vid directory : String) : List PackageVersionFile :=
  st.index.filter (fun f => f.packageVersionId == vid && f.directory == directory)

/-- Modelled from the spec: the index insert
`createPackageVersionFile(file)`.  The unique (version, directory, name)
constraint raises `ER_DUP_ENTRY`; an injected fault models any other
storage failure (or a concurrent insert racing ahead). -/
def createPackageVersionFileRepo (insertFault : Option ErrCode) (st : St)
    (file : PackageVersionFile) : Except ErrCode St :=
  match insertFault with
  | some e => Except.error e
  | none =>
    if st.index.any (pvfMatch file.packageVersionId file.directory file.name) then
      Except.error ErrCode.ER_DUP_ENTRY
    else
      Except.ok { st with
        index := st.index ++ [file]
        events := st.events ++
          [Event.indexInsert file.packageVersionId file.directory file.name] }

/-- Read a file from the modelled filesystem (`fs.stat` plus
`calculateIntegrity`); later writes shadow earlier ones. -/
def readFs (fsFiles : List (String × FileData)) (p : String) : Option FileData :=
  (fsFiles.find? (fun kv => kv.1 == p)).map Prod.snd

/-! ### The File Materializer: `#savePackageVersionFile`. -/

/-- The index entry built by `#savePackageVersionFile` for a fresh path:
dist path is the percent-encoded member path, directory/name keep the
decoded characters, content type comes from the MIME lookup, and the
mtime is the version's publish time. -/
def mkEntry (mime : String → String) (pkgVersion : PackageVersion)
    (path : String) (data : FileData) : PackageVersionFile :=
  { packageVersionId := pkgVersion.packageVersionId
    directory := (getDirectoryAndName path).1
    name := (getDirectoryAndName path).2
    dist := { path := encodeURI path
              version := pkgVersion.version
              size := data.size
              shasum := data.shasum
              integrity := data.integrity }
    contentType := mime path
    mtime := pkgVersion.publishTime }

/-- The service's `#savePackageVersionFile`: return the existing index
entry for (version, directory, name) if present; otherwise stat the local
file, compute its integrity, store the content blob under the
percent-encoded path key, insert the index row, and swallow a duplicate-key
conflict from the insert (returning the freshly built entry). -/
def savePackageVersionFile (insertFault : Option ErrCode) (mime : String → String)
    (pkgVersion : PackageVersion) (path localFile : String) (st : St) :
    Except ErrCode PackageVersionFile × St :=
  let dn := getDirectoryAndName path
  match findPackageVersionFile st pkgVersion.packageVersionId dn.1 dn.2 with
  | some file => (Except.ok file, st)
  | none =>
    match readFs st.fsFiles localFile with
    | none => (Except.error ErrCode.ENOENT, st)
    | some data =>
      let file := mkEntry mime pkgVersion path data
      let st := { st with events := st.events ++
        [Event.blobWrite (encodeURI path) pkgVersion.version] }
      match createPackageVersionFileRepo insertFault st file with
      | Except.error e =>
        if e = ErrCode.ER_DUP_ENTRY then (Except.ok file, st)
        else (Except.error e, st)
      | Except.ok st => (Except.ok file, st)

/-! ### The Archive Extractor: `tar.extract` with `strip: 1` and the
service's `onentry` callback. -/

/-- Whether the `onentry` callback retains a member: only `File` entries
whose path has no hidden-directory segment. -/
def retainedEntry (e : TarEntry) : Bool :=
  e.type == TarEntryType.file && !containsHiddenDir e.path

/-- Whether a stripped file name is one of the three literal README
candidates. -/
def isReadmeCandidate (f : String) : Bool :=
  f == "README.md" || f == "readme.md" || f == "Readme.md"

/-- The `onentry` callback folded over the member list: accumulate the
ordered path manifest (each retained member's stripped path, `/`-prefixed)
and remember the first README candidate. -/
def processEntries : List TarEntry → List String → String → List String × String
  | [], paths, readme => (paths, readme)
  | e :: rest, paths, readme =>
    if retainedEntry e then
      let filename := stripFirstSegment e.path
      let readme :=
        if readme == "" then
          if isReadmeCandidate filename then filename else readme
        else readme
      processEntries rest (paths ++ ["/" ++ filename]) readme
    else
      processEntries rest paths readme

/-- The ordered path manifest the extractor produces. -/
def retainedPaths (entries : List TarEntry) : List String :=
  (entries.filter retainedEntry).map (fun e => "/" ++ stripFirstSegment e.path)

/-- On-disk effect of `tar.extract` with `strip: 1`: every `File` member
whose stripped name is non-empty lands in the working directory (hidden
members included — `onentry` only filters the manifest, not the disk). -/
def extractToDisk (entries : List TarEntry) (tmpdir : String) (st : St) : St :=
  { st with fsFiles :=
      (entries.filterMap (fun e =>
        if e.type == TarEntryType.file && stripFirstSegment e.path != "" then
          some (tmpdir ++ "/" ++ stripFirstSegment e.path, e.data)
        else none)).reverse ++ st.fsFiles }

/-! ### The Sync Orchestrator: `syncPackageVersionFiles`. -/

/-- The temporary working directory path:
`createTempDir(config.dataDir, 'unpkg_<fullname>@<version>_<uuid>')`
(modelled from the spec's `createTempDir(baseDir, nameHint)` contract). -/
def tmpdirPath (env : Env) (pkg : Package) (pkgVersion : PackageVersion) : String :=
  env.dataDir ++ "/unpkg_" ++ replaceFirstSlash pkg.fullname ++ "@" ++
    pkgVersion.version ++ "_" ++ env.uuid

/-- Marker data for the downloaded tarball file on disk. -/
def tarballFileData : FileData :=
  { size := 0, shasum := "", integrity := "" }

/-- State after `createTempDir` provisioned the working directory. -/
def tempDirAdded (tmpdir : String) (st : St) : St :=
  { st with tempDirs := st.tempDirs ++ [tmpdir] }

/-- State after `downloadDistToFile` wrote the temporary tarball file. -/
def downloadedState (tarFile : String) (st : St) : St :=
  { st with
    fsFiles := (tarFile, tarballFileData) :: st.fsFiles
    events := st.events ++ [Event.download tarFile] }

/-- State after `tar.extract` populated the working directory. -/
def extractedState (entries : List TarEntry) (tmpdir : String) (st : St) : St :=
  extractToDisk entries tmpdir
    { st with events := st.events ++ [Event.extract tmpdir] }

/-- Materialize every manifested path in order, accumulating the produced
entries; the first fatal error aborts the loop. -/
def saveLoop (insertFault : Option ErrCode) (mime : String → String)
    (pkgVersion : PackageVersion) (tmpdir : String) :
    List String → List PackageVersionFile → St →
    Except ErrCode Unit × List PackageVersionFile × St
  | [], files, st => (Except.ok (), files, st)
  | path :: rest, files, st =>
    match savePackageVersionFile insertFault mime pkgVersion path
        (joinPath tmpdir path) st with
    | (Except.error e, st) => (Except.error e, files, st)
    | (Except.ok file, st) =>
      saveLoop insertFault mime pkgVersion tmpdir rest (files ++ [file]) st

/-- The `try` block of `syncPackageVersionFiles`: download the tarball to
the temporary file, extract it (raising `TAR_BAD_ARCHIVE` on a corrupt
archive), materialize every manifested path, then hand the README member
(if any) to the README-persistence collaborator. -/
def syncBody (env : Env) (pkgVersion : PackageVersion) (tmpdir tarFile : String)
    (st : St) : Except ErrCode Unit × List PackageVersionFile × St :=
  match env.downloadFault with
  | some e => (Except.error e, [], st)
  | none =>
    let st := downloadedState tarFile st
    match env.tarball with
    | Tarball.corrupt => (Except.error ErrCode.TAR_BAD_ARCHIVE, [], st)
    | Tarball.valid entries =>
      let pr := processEntries entries [] ""
      let st := extractedState entries tmpdir st
      match saveLoop env.insertFault env.mime pkgVersion tmpdir pr.1 [] st with
      | (Except.error e, files, st) => (Except.error e, files, st)
      | (Except.ok _, files, st) =>
        if pr.2 != "" then
          (Except.ok (), files, { st with events := st.events ++
            [Event.readmeSave pkgVersion.packageVersionId (joinPath tmpdir pr.2)] })
        else
          (Except.ok (), files, st)

/-- The `finally` block: best-effort `fs.rm` of the temporary tarball file
and working directory.  A cleanup failure is caught and logged (leaving the
temporaries behind); it never escapes. -/
def cleanupTemp (rmFault : Bool) (tmpdir tarFile : String) (st : St) : St :=
  if rmFault then
    { st with events := st.events ++ [Event.rmWarnLog] }
  else
    { st with
      fsFiles := st.fsFiles.filter (fun kv =>
        kv.1 != tarFile && !(kv.1.startsWith (tmpdir ++ "/")) && kv.1 != tmpdir)
      tempDirs := st.tempDirs.filter (fun d => d != tmpdir) }

/-- The service's `syncPackageVersionFiles`: resolve the owning package
(absent → empty result before any side effect), create the temporary
directory, run the body, turn a `TAR_BAD_ARCHIVE` failure into a success
with the files gathered so far, and always run cleanup before returning. -/
def syncPackageVersionFiles (env : Env) (pkgVersion : PackageVersion) (st : St) :
    Except ErrCode (List PackageVersionFile) × St :=
  match findPackageByPackageId env pkgVersion.packageId with
  | none => (Except.ok [], st)
  | some pkg =>
    let tmpdir := tmpdirPath env pkg pkgVersion
    let tarFile := tmpdir ++ ".tgz"
    let st := tempDirAdded tmpdir st
    match syncBody env pkgVersion tmpdir tarFile st with
    | (res, files, st) =>
      let answer : Except ErrCode (List PackageVersionFile) :=
        match res with
        | Except.ok _ => Except.ok files
        | Except.error e =>
          if e = ErrCode.TAR_BAD_ARCHIVE then Except.ok files
          else Except.error e
      (answer, cleanupTemp env.rmFault tmpdir tarFile st)

/-! ### The File Index Query Layer. -/

/-- The service's `#ensurePackageVersionFilesSync`: trigger the sync only
when the index holds no entry for the version. -/
def ensurePackageVersionFilesSync (env : Env) (pkgVersion : PackageVersion)
    (st : St) : Except ErrCode Unit × St :=
  if hasPackageVersionFiles st pkgVersion.packageVersionId then
    (Except.ok (), st)
  else
    match syncPackageVersionFiles env pkgVersion st with
    | (Except.error e, st) => (Except.error e, st)
    | (Except.ok _, st) => (Except.ok (), st)

/-- The service's `listPackageVersionFiles`. -/
def listPackageVersionFiles (env : Env) (pkgVersion : PackageVersion)
    (directory : String) (st : St) :
    Except ErrCode (List PackageVersionFile) × St :=
  match ensurePackageVersionFilesSync env pkgVersion st with
  | (Except.error e, st) => (Except.error e, st)
  | (Except.ok _, st) =>
    (Except.ok (listPackageVersionFilesRepo st pkgVersion.packageVersionId directory), st)

/-- The service's `showPackageVersionFile`. -/
def showPackageVersionFile (env : Env) (pkgVersion : PackageVersion)
    (path : String) (st : St) :
    Except ErrCode (Option PackageVersionFile) × St :=
  match ensurePackageVersionFilesSync env pkgVersion st with
  | (Except.error e, st) => (Except.error e, st)
  | (Except.ok _, st) =>
    let dn := getDirectoryAndName path
    (Except.ok (findPackageVersionFile st pkgVersion.packageVersionId dn.1 dn.2), st)

/-! ## Helper lemmas -/

/-- A per-member correctness relation: the entry belongs to the version and
carries the POSIX directory/name split of the member's normalized path. -/
def tupleOk (vid : String) (p : String) (f : PackageVersionFile) : Prop :=
  f.packageVersionId = vid ∧ f.directory = (getDirectoryAndName p).1 ∧
    f.name = (getDirectoryAndName p).2

/-- Events emitted by the materialization loop. -/
def isMaterializeEvent : Event → Bool
  | Event.blobWrite _ _ => true
  | Event.indexInsert _ _ _ => true
  | _ => false

/-- Blob-write recognizer, for counting content-store writes. -/
def isBlobWrite : Event → Bool
  | Event.blobWrite _ _ => true
  | _ => false

lemma pvfMatch_eq_true_iff (vid d n : String) (f : PackageVersionFile) :
    pvfMatch vid d n f = true ↔
      f.packageVersionId = vid ∧ f.directory = d ∧ f.name = n := by
  simp [pvfMatch, Bool.and_eq_true, and_assoc]

lemma pvfMatch_false_of_ne (f : PackageVersionFile) (vid d₂ n₂ : String)
    (hne : (f.directory, f.name) ≠ (d₂, n₂)) :
    pvfMatch vid d₂ n₂ f = false := by
  rw [Bool.eq_false_iff]
  intro h
  rcases (pvfMatch_eq_true_iff vid d₂ n₂ f).mp h with ⟨_, hd, hn⟩
  exact hne (by rw [hd, hn])

lemma pvfMatch_false_of_vid_ne (f : PackageVersionFile) (vid d n : String)
    (hne : f.packageVersionId ≠ vid) :
    pvfMatch vid d n f = false := by
  rw [Bool.eq_false_iff]
  intro h
  exact hne ((pvfMatch_eq_true_iff vid d n f).mp h).1

lemma find_tupleOk {st : St} {vid d n : String} {f : PackageVersionFile}
    (h : findPackageVersionFile st vid d n = some f) :
    f.packageVersionId = vid ∧ f.directory = d ∧ f.name = n :=
  (pvfMatch_eq_true_iff vid d n f).mp (List.find?_some h)

lemma mkEntry_tupleOk (mime : String → String) (v : PackageVersion)
    (path : String) (data : FileData) :
    tupleOk v.packageVersionId path (mkEntry mime v path data) := by
  exact ⟨rfl, rfl, rfl⟩

/-! ### Behavior of `#savePackageVersionFile` on each branch. -/

lemma save_hit {st : St} {v : PackageVersion} {path lf : String}
    {f : PackageVersionFile} (ifault : Option ErrCode) (mime : String → String)
    (h : findPackageVersionFile st v.packageVersionId
      (getDirectoryAndName path).1 (getDirectoryAndName path).2 = some f) :
    savePackageVersionFile ifault mime v path lf st = (Except.ok f, st) := by
  simp only [savePackageVersionFile, h]

lemma save_miss {st : St} {v : PackageVersion} {path lf : String}
    {data : FileData} (mime : String → String)
    (hfind : findPackageVersionFile st v.packageVersionId
      (getDirectoryAndName path).1 (getDirectoryAndName path).2 = none)
    (hfs : readFs st.fsFiles lf = some data) :
    savePackageVersionFile none mime v path lf st =
      (Except.ok (mkEntry mime v path data),
       { st with
         index := st.index ++ [mkEntry mime v path data]
         events := st.events ++
           [Event.blobWrite (encodeURI path) v.version,
            Event.indexInsert v.packageVersionId
              (getDirectoryAndName path).1 (getDirectoryAndName path).2] }) := by
  have hany : st.index.any (pvfMatch v.packageVersionId
      (getDirectoryAndName path).1 (getDirectoryAndName path).2) = false := by
    rw [Bool.eq_false_iff]
    intro h
    rcases List.any_eq_true.mp h with ⟨f, hf, hp⟩
    exact absurd hp (List.find?_eq_none.mp hfind f hf)
  simp only [savePackageVersionFile, hfind, hfs, createPackageVersionFileRepo]
  simp only [mkEntry, hany, Bool.false_eq_true, if_false, List.append_assoc,
    List.singleton_append]

lemma save_dup_fault {st : St} {v : PackageVersion} {path lf : String}
    {data : FileData} (mime : String → String)
    (hfind : findPackageVersionFile st v.packageVersionId
      (getDirectoryAndName path).1 (getDirectoryAndName path).2 = none)
    (hfs : readFs st.fsFiles lf = some data) :
    savePackageVersionFile (some ErrCode.ER_DUP_ENTRY) mime v path lf st =
      (Except.ok (mkEntry mime v path data),
       { st with events := st.events ++
           [Event.blobWrite (encodeURI path) v.version] }) := by
  simp only [savePackageVersionFile, hfind, hfs, createPackageVersionFileRepo]
  simp

lemma save_other_fault {st : St} {v : PackageVersion} {path lf : String}
    {data : FileData} {e : ErrCode} (mime : String → String)
    (hfind : findPackageVersionFile st v.packageVersionId
      (getDirectoryAndName path).1 (getDirectoryAndName path).2 = none)
    (hfs : readFs st.fsFiles lf = some data)
    (hne : e ≠ ErrCode.ER_DUP_ENTRY) :
    savePackageVersionFile (some e) mime v path lf st =
      (Except.error e,
       { st with events := st.events ++
           [Event.blobWrite (encodeURI path) v.version] }) := by
  simp only [savePackageVersionFile, hfind, hfs, createPackageVersionFileRepo]
  simp [hne]

/-! ### Behavior of the extractor callback. -/

lemma processEntries_paths (entries : List TarEntry) :
    ∀ acc r, (processEntries entries acc r).1 = acc ++ retainedPaths entries := by
  induction entries with
  | nil => intro acc r; simp [processEntries, retainedPaths]
  | cons e rest ih =>
    intro acc r
    by_cases h : retainedEntry e = true
    · simp [processEntries, h, retainedPaths, List.filter_cons, ih]
    · simp [processEntries, h, retainedPaths, List.filter_cons, ih]

lemma isReadmeCandidate_ne_empty {f : String} (h : isReadmeCandidate f = true) :
    ¬(f == "") = true := by
  rcases Bool.or_eq_true _ _ |>.mp h with h' | h'
  · rcases Bool.or_eq_true _ _ |>.mp h' with h'' | h''
    · rw [beq_iff_eq] at h'' ⊢; simp [h'']
    · rw [beq_iff_eq] at h'' ⊢; simp [h'']
  · rw [beq_iff_eq] at h' ⊢; simp [h']

/-- The README member the extractor records is the first stripped file name
among the retained members that matches one of the three literal
candidates. -/
lemma processEntries_readme (entries : List TarEntry) :
    ∀ acc r, (processEntries entries acc r).2 =
      if r == "" then
        ((((entries.filter retainedEntry).map
            (fun e => stripFirstSegment e.path)).find? isReadmeCandidate).getD "")
      else r := by
  induction entries with
  | nil =>
    intro acc r
    by_cases h : r = ""
    · subst h; simp [processEntries]
    · simp [processEntries, h]
  | cons e rest ih =>
    intro acc r
    by_cases hret : retainedEntry e = true
    · by_cases hr : r = ""
      · subst hr
        simp only [processEntries, hret, if_true]
        by_cases hc : isReadmeCandidate (stripFirstSegment e.path) = true
        · rw [ih]
          have hne := isReadmeCandidate_ne_empty hc
          simp [hc, hne, List.filter_cons, hret, List.find?_cons_of_pos _ hc]
        · have hcf : isReadmeCandidate (stripFirstSegment e.path) = false :=
            Bool.eq_false_iff.mpr hc
          rw [ih]
          have hskip : ((stripFirstSegment e.path ::
              (rest.filter retainedEntry).map (fun e => stripFirstSegment e.path)).find?
                isReadmeCandidate) =
              ((rest.filter retainedEntry).map
                (fun e => stripFirstSegment e.path)).find? isReadmeCandidate :=
            List.find?_cons_of_neg _ (by simp [hcf])
          simp [hcf, List.filter_cons, hret, hskip]
      · simp only [processEntries, hret, if_true]
        rw [ih]
        simp [hr]
    · simp only [processEntries, hret, Bool.false_eq_true, if_false]
      rw [ih]
      simp [List.filter_cons, hret]

/-- The README pick of one extraction run. -/
def readmePick (entries : List TarEntry) : String :=
  (processEntries entries [] "").2

lemma readmePick_eq (entries : List TarEntry) :
    readmePick entries =
      ((((entries.filter retainedEntry).map
          (fun e => stripFirstSegment e.path)).find? isReadmeCandidate).getD "") := by
  rw [readmePick, processEntries_readme]
  simp

/-! ### The extracted working directory contains every retained member. -/

lemma joinPath_slash (base f : String) :
    joinPath base ("/" ++ f) = base ++ "/" ++ f := by
  have h : ("/" ++ f).data = '/' :: f.data := by
    simp [String.data_append]
  simp only [joinPath, h, List.headD_cons, if_pos]
  rw [← String.append_assoc]

lemma readFs_isSome_of_mem {fsFiles : List (String × FileData)} {k : String}
    {d : FileData} (h : (k, d) ∈ fsFiles) : (readFs fsFiles k).isSome := by
  rw [readFs]
  have hs : (fsFiles.find? (fun kv => kv.1 == k)).isSome := by
    rw [List.find?_isSome]
    exact ⟨(k, d), h, by simp⟩
  rcases Option.isSome_iff_exists.mp hs with ⟨x, hx⟩
  simp [hx]

lemma extract_disk_has {entries : List TarEntry} {e : TarEntry}
    (tmpdir : String) (st : St)
    (he : e ∈ entries) (hr : retainedEntry e = true)
    (hs : stripFirstSegment e.path ≠ "") :
    (readFs (extractToDisk entries tmpdir st).fsFiles
      (joinPath tmpdir ("/" ++ stripFirstSegment e.path))).isSome := by
  rw [joinPath_slash]
  apply readFs_isSome_of_mem (d := e.data)
  simp only [extractToDisk, List.mem_append, List.mem_reverse, List.mem_filterMap]
  left
  refine ⟨e, he, ?_⟩
  have htype : (e.type == TarEntryType.file) = true := by
    rcases Bool.and_eq_true _ _ |>.mp hr with ⟨h1, _⟩
    exact h1
  simp [htype, hs]

/-- Every path in the extraction manifest is present on disk afterwards
(provided its stripped name is non-empty, i.e. the member sits below the
conventional wrapper directory). -/
lemma retainedPaths_disk {entries : List TarEntry} (tmpdir : String) (st : St)
    (hstrip : ∀ e ∈ entries, retainedEntry e = true → stripFirstSegment e.path ≠ "")
    {p : String} (hp : p ∈ retainedPaths entries) :
    (readFs (extractToDisk entries tmpdir st).fsFiles (joinPath tmpdir p)).isSome := by
  rw [retainedPaths] at hp
  rcases List.mem_map.mp hp with ⟨e, he, rfl⟩
  rcases List.mem_filter.mp he with ⟨hmem, hret⟩
  exact extract_disk_has tmpdir st hmem hret (hstrip e hmem hret)

/-! ### The materialization loop. -/

/-- When every path's (version, directory, name) tuple is already in the
index, the loop returns the found entries in order and leaves the state
untouched: no stat, no blob write, no index insert. -/
lemma saveLoop_hits (ifault : Option ErrCode) (mime : String → String)
    (v : PackageVersion) (tmpdir : String) {ps : List String}
    {fs : List PackageVersionFile} {st : St}
    (hhits : List.Forall₂ (fun p f =>
      findPackageVersionFile st v.packageVersionId
        (getDirectoryAndName p).1 (getDirectoryAndName p).2 = some f) ps fs) :
    ∀ files, saveLoop ifault mime v tmpdir ps files st =
      (Except.ok (), files ++ fs, st) := by
  induction hhits with
  | nil => intro files; simp [saveLoop]
  | cons hpf _ ih =>
    intro files
    rw [saveLoop, save_hit ifault mime hpf]
    dsimp only
    rw [ih]
    simp

/-- Mixed-success run of the loop: with no injected insert fault and every
path's file present on disk, the loop succeeds, produces one entry per path
whose tuple is the POSIX split of that path, leaves the filesystem and
temp-dir set unchanged, and appends only blob-write/index-insert events. -/
lemma saveLoop_ok (mime : String → String) (v : PackageVersion)
    (tmpdir : String) :
    ∀ (ps : List String) (files : List PackageVersionFile) (st : St),
    (∀ p ∈ ps, (readFs st.fsFiles (joinPath tmpdir p)).isSome) →
    ∃ new st' les,
      saveLoop none mime v tmpdir ps files st = (Except.ok (), files ++ new, st') ∧
      List.Forall₂ (tupleOk v.packageVersionId) ps new ∧
      st'.fsFiles = st.fsFiles ∧ st'.tempDirs = st.tempDirs ∧
      st'.events = st.events ++ les ∧ (∀ ev ∈ les, isMaterializeEvent ev = true)
  | [], files, st, _ => by
    exact ⟨[], st, [], by simp [saveLoop], List.Forall₂.nil, rfl, rfl, by simp,
      by simp⟩
  | p :: ps, files, st, hdisk => by
    rcases hfind : findPackageVersionFile st v.packageVersionId
        (getDirectoryAndName p).1 (getDirectoryAndName p).2 with _ | f
    · have hsome := hdisk p (by simp)
      rcases Option.isSome_iff_exists.mp hsome with ⟨data, hdata⟩
      have hstep := save_miss mime hfind hdata
      set st₁ : St :=
        { st with
          index := st.index ++ [mkEntry mime v p data]
          events := st.events ++
            [Event.blobWrite (encodeURI p) v.version,
             Event.indexInsert v.packageVersionId
               (getDirectoryAndName p).1 (getDirectoryAndName p).2] } with hst₁
      have hdisk₁ : ∀ q ∈ ps, (readFs st₁.fsFiles (joinPath tmpdir q)).isSome := by
        intro q hq
        exact hdisk q (by simp [hq])
      rcases saveLoop_ok mime v tmpdir ps (files ++ [mkEntry mime v p data]) st₁
          hdisk₁ with ⟨new, st', les, heq, hf₂, hfs, htd, hev, hmat⟩
      refine ⟨mkEntry mime v p data :: new, st',
        Event.blobWrite (encodeURI p) v.version ::
          Event.indexInsert v.packageVersionId
            (getDirectoryAndName p).1 (getDirectoryAndName p).2 :: les, ?_, ?_, ?_, ?_, ?_, ?_⟩
      · rw [saveLoop, hstep]
        dsimp only
        rw [heq]
        simp
      · exact List.Forall₂.cons (mkEntry_tupleOk mime v p data) hf₂
      · exact hfs
      · exact htd
      · rw [hev, hst₁]
        simp
      · intro ev hev'
        simp only [List.mem_cons] at hev'
        rcases hev' with h | h | h
        · subst h; rfl
        · subst h; rfl
        · exact hmat ev h
    · have hdisk' : ∀ q ∈ ps, (readFs st.fsFiles (joinPath tmpdir q)).isSome := by
        intro q hq
        exact hdisk q (by simp [hq])
      rcases saveLoop_ok mime v tmpdir ps (files ++ [f]) st hdisk'
        with ⟨new, st', les, heq, hf₂, hfs, htd, hev, hmat⟩
      refine ⟨f :: new, st', les, ?_, ?_, hfs, htd, hev, hmat⟩
      · rw [saveLoop, save_hit none mime hfind]
        dsimp only
        rw [heq]
        simp
      · have ht := find_tupleOk hfind
        exact List.Forall₂.cons ⟨ht.1, ht.2.1, ht.2.2⟩ hf₂

/-- Fresh run of the loop: no entry for any path's tuple exists yet and the
tuples are pairwise distinct, so every path is freshly materialized; the
produced entries are appended to the index in loop order. -/
lemma saveLoop_fresh (mime : String → String) (v : PackageVersion)
    (tmpdir : String) :
    ∀ (ps : List String) (files : List PackageVersionFile) (st : St),
    (∀ p ∈ ps, (readFs st.fsFiles (joinPath tmpdir p)).isSome) →
    (∀ p ∈ ps, ∀ f ∈ st.index,
      pvfMatch v.packageVersionId (getDirectoryAndName p).1
        (getDirectoryAndName p).2 f = false) →
    (ps.map getDirectoryAndName).Nodup →
    ∃ new st',
      saveLoop none mime v tmpdir ps files st = (Except.ok (), files ++ new, st') ∧
      st'.index = st.index ++ new ∧ st'.fsFiles = st.fsFiles ∧
      List.Forall₂ (tupleOk v.packageVersionId) ps new
  | [], files, st, _, _, _ => by
    exact ⟨[], st, by simp [saveLoop], by simp, rfl, List.Forall₂.nil⟩
  | p :: ps, files, st, hdisk, hmiss, hnodup => by
    have hfind : findPackageVersionFile st v.packageVersionId
        (getDirectoryAndName p).1 (getDirectoryAndName p).2 = none := by
      rw [findPackageVersionFile, List.find?_eq_none]
      intro f hf
      simp [hmiss p (by simp) f hf]
    have hsome := hdisk p (by simp)
    rcases Option.isSome_iff_exists.mp hsome with ⟨data, hdata⟩
    have hstep := save_miss mime hfind hdata
    set st₁ : St :=
      { st with
        index := st.index ++ [mkEntry mime v p data]
        events := st.events ++
          [Event.blobWrite (encodeURI p) v.version,
           Event.indexInsert v.packageVersionId
             (getDirectoryAndName p).1 (getDirectoryAndName p).2] } with hst₁
    have hdisk₁ : ∀ q ∈ ps, (readFs st₁.fsFiles (joinPath tmpdir q)).isSome := by
      intro q hq
      exact hdisk q (by simp [hq])
    have hmiss₁ : ∀ q ∈ ps, ∀ f ∈ st₁.index,
        pvfMatch v.packageVersionId (getDirectoryAndName q).1
          (getDirectoryAndName q).2 f = false := by
      intro q hq f hf
      rw [hst₁] at hf
      simp only [List.mem_append, List.mem_singleton] at hf
      rcases hf with hf | hf
      · exact hmiss q (by simp [hq]) f hf
      · subst hf
        apply pvfMatch_false_of_ne
        have hne : getDirectoryAndName p ≠ getDirectoryAndName q := by
          have := (List.nodup_cons.mp hnodup).1
          intro hcontra
          exact this (hcontra ▸ List.mem_map_of_mem getDirectoryAndName hq)
        simp only [mkEntry]
        intro hcontra
        apply hne
        have h1 := congrArg Prod.fst hcontra
        have h2 := congrArg Prod.snd hcontra
        simp at h1 h2
        exact Prod.ext h1 h2
    have hnodup₁ : (ps.map getDirectoryAndName).Nodup :=
      (List.nodup_cons.mp hnodup).2
    rcases saveLoop_fresh mime v tmpdir ps (files ++ [mkEntry mime v p data]) st₁
        hdisk₁ hmiss₁ hnodup₁ with ⟨new, st', heq, hidx, hfs, hf₂⟩
    refine ⟨mkEntry mime v p data :: new, st', ?_, ?_, hfs, ?_⟩
    · rw [saveLoop, hstep]
      dsimp only
      rw [heq]
      simp
    · rw [hidx, hst₁]
      simp
    · exact List.Forall₂.cons (mkEntry_tupleOk mime v p data) hf₂

/-! ### Index-lookup lemmas for re-running a sync. -/

lemma find_append_of_none {pre fs : List PackageVersionFile}
    {q : PackageVersionFile → Bool} (h : ∀ f ∈ pre, q f = false) :
    (pre ++ fs).find? q = fs.find? q := by
  induction pre with
  | nil => simp
  | cons a pre ih =>
    rw [List.cons_append, List.find?_cons_of_neg _ (by simp [h a (by simp)])]
    exact ih (fun f hf => h f (by simp [hf]))

lemma forall₂_find_cons {pred : String → PackageVersionFile → Bool}
    {f : PackageVersionFile} {fs gs : List PackageVersionFile} {ps : List String}
    (hskip : ∀ p ∈ ps, pred p f = false)
    (h : List.Forall₂ (fun p g => fs.find? (pred p) = some g) ps gs) :
    List.Forall₂ (fun p g => (f :: fs).find? (pred p) = some g) ps gs := by
  induction h with
  | nil => exact List.Forall₂.nil
  | @cons p g ps' gs' hpg _ ih =>
    refine List.Forall₂.cons ?_ (ih (fun q hq => hskip q (by simp [hq])))
    rw [List.find?_cons_of_neg _ (by simp [hskip p (by simp)])]
    exact hpg

/-- In an index that holds exactly the entries of one fresh sync (with
pairwise-distinct tuples), looking up each path's tuple returns exactly the
entry that sync created for it, in order. -/
lemma findEntry_of_tupleOk {vid : String} :
    ∀ {ps : List String} {fs : List PackageVersionFile},
    List.Forall₂ (tupleOk vid) ps fs →
    (ps.map getDirectoryAndName).Nodup →
    List.Forall₂ (fun p f =>
      fs.find? (pvfMatch vid (getDirectoryAndName p).1 (getDirectoryAndName p).2)
        = some f) ps fs := by
  intro ps fs h hnodup
  induction h with
  | nil => exact List.Forall₂.nil
  | @cons p f ps' fs' hpf htail ih =>
    have hnd := List.nodup_cons.mp hnodup
    refine List.Forall₂.cons ?_ ?_
    · rw [List.find?_cons_of_pos _
        ((pvfMatch_eq_true_iff _ _ _ _).mpr ⟨hpf.1, hpf.2.1, hpf.2.2⟩)]
    · refine forall₂_find_cons ?_ (ih hnd.2)
      intro q hq
      apply pvfMatch_false_of_ne
      rw [hpf.2.1, hpf.2.2]
      intro hcontra
      apply hnd.1
      have : getDirectoryAndName p = getDirectoryAndName q := by
        rcases Prod.mk.injEq _ _ _ _ ▸ hcontra with ⟨h1, h2⟩
        exact Prod.ext h1 h2
      exact this ▸ List.mem_map_of_mem getDirectoryAndName hq

/-! ### Projections of the intermediate states. -/

@[simp] lemma tempDirAdded_index (tmpdir : String) (st : St) :
    (tempDirAdded tmpdir st).index = st.index := rfl

@[simp] lemma tempDirAdded_events (tmpdir : String) (st : St) :
    (tempDirAdded tmpdir st).events = st.events := rfl

@[simp] lemma downloadedState_index (tarFile : String) (st : St) :
    (downloadedState tarFile st).index = st.index := rfl

@[simp] lemma downloadedState_events (tarFile : String) (st : St) :
    (downloadedState tarFile st).events = st.events ++ [Event.download tarFile] := rfl

@[simp] lemma extractedState_index (entries : List TarEntry) (tmpdir : String)
    (st : St) : (extractedState entries tmpdir st).index = st.index := rfl

@[simp] lemma extractedState_events (entries : List TarEntry) (tmpdir : String)
    (st : St) :
    (extractedState entries tmpdir st).events = st.events ++ [Event.extract tmpdir] := rfl

@[simp] lemma cleanupTemp_index (b : Bool) (tmpdir tarFile : String) (st : St) :
    (cleanupTemp b tmpdir tarFile st).index = st.index := by
  cases b <;> simp [cleanupTemp]

@[simp] lemma cleanupTemp_events (b : Bool) (tmpdir tarFile : String) (st : St) :
    (cleanupTemp b tmpdir tarFile st).events =
      st.events ++ (if b then [Event.rmWarnLog] else []) := by
  cases b <;> simp [cleanupTemp]

lemma extractedState_disk {entries : List TarEntry} (tmpdir : String) (st : St)
    (hstrip : ∀ e ∈ entries, retainedEntry e = true → stripFirstSegment e.path ≠ "")
    {p : String} (hp : p ∈ retainedPaths entries) :
    (readFs (extractedState entries tmpdir st).fsFiles (joinPath tmpdir p)).isSome :=
  retainedPaths_disk tmpdir _ hstrip hp

/-! ### Whole-sync lemmas. -/

/-- A successful sync of a valid tarball (package resolvable, no download
fault, no insert fault, members below the wrapper directory): it returns
one entry per retained member in extraction order, each carrying that
member's POSIX directory/name split, and the event trace is download,
extract, the materialization events, the README hand-off (when a README
member was picked), and the cleanup outcome — in that order. -/
lemma sync_ok {env : Env} {v : PackageVersion} {pkg : Package}
    {entries : List TarEntry} (st : St)
    (hpkg : findPackageByPackageId env v.packageId = some pkg)
    (hdl : env.downloadFault = none)
    (hins : env.insertFault = none)
    (htar : env.tarball = Tarball.valid entries)
    (hstrip : ∀ e ∈ entries, retainedEntry e = true → stripFirstSegment e.path ≠ "") :
    ∃ files st' les,
      syncPackageVersionFiles env v st = (Except.ok files, st') ∧
      List.Forall₂ (tupleOk v.packageVersionId) (retainedPaths entries) files ∧
      (∀ ev ∈ les, isMaterializeEvent ev = true) ∧
      st'.events = st.events ++
        [Event.download (tmpdirPath env pkg v ++ ".tgz"),
         Event.extract (tmpdirPath env pkg v)] ++ les ++
        (if readmePick entries == "" then [] else
          [Event.readmeSave v.packageVersionId
            (joinPath (tmpdirPath env pkg v) (readmePick entries))]) ++
        (if env.rmFault then [Event.rmWarnLog] else []) := by
  have hdisk : ∀ p ∈ retainedPaths entries,
      (readFs (extractedState entries (tmpdirPath env pkg v)
        (downloadedState (tmpdirPath env pkg v ++ ".tgz")
          (tempDirAdded (tmpdirPath env pkg v) st))).fsFiles
        (joinPath (tmpdirPath env pkg v) p)).isSome := by
    intro p hp
    exact extractedState_disk _ _ hstrip hp
  obtain ⟨new, stL, les, heq, hf₂, _, _, hev, hmat⟩ :=
    saveLoop_ok env.mime v (tmpdirPath env pkg v) (retainedPaths entries) []
      (extractedState entries (tmpdirPath env pkg v)
        (downloadedState (tmpdirPath env pkg v ++ ".tgz")
          (tempDirAdded (tmpdirPath env pkg v) st))) hdisk
  simp only [syncPackageVersionFiles, hpkg, syncBody, hdl, htar, hins]
  rw [processEntries_paths]
  simp only [List.nil_append]
  rw [heq]
  dsimp only
  rw [show (processEntries entries [] "").2 = readmePick entries from rfl]
  by_cases hr : (readmePick entries == "") = true
  · have hr' : (readmePick entries != "") = false := by simp [bne, hr]
    rw [hr']
    rw [if_neg (by simp)]
    refine ⟨new, _, les, rfl, hf₂, hmat, ?_⟩
    simp [hev, hr]
  · have hr' : (readmePick entries != "") = true := by simp [bne, hr]
    rw [hr']
    rw [if_pos rfl]
    refine ⟨new, _, les, rfl, hf₂, hmat, ?_⟩
    simp [hev, hr]

/-- A corrupt tarball: the body raises `TAR_BAD_ARCHIVE`, the catch turns
it into a success with the (empty) file list. -/
lemma sync_corrupt {env : Env} {v : PackageVersion} {pkg : Package} (st : St)
    (hpkg : findPackageByPackageId env v.packageId = some pkg)
    (hdl : env.downloadFault = none)
    (htar : env.tarball = Tarball.corrupt) :
    (syncPackageVersionFiles env v st).1 = Except.ok [] := by
  simp [syncPackageVersionFiles, hpkg, syncBody, hdl, htar]

/-- A download failure with any other error code propagates to the caller. -/
lemma sync_dl_fault {env : Env} {v : PackageVersion} {pkg : Package}
    {e : ErrCode} (st : St)
    (hpkg : findPackageByPackageId env v.packageId = some pkg)
    (hdl : env.downloadFault = some e)
    (hne : e ≠ ErrCode.TAR_BAD_ARCHIVE) :
    (syncPackageVersionFiles env v st).1 = Except.error e := by
  simp [syncPackageVersionFiles, hpkg, syncBody, hdl, hne]

/-- A sync over an index that already holds an entry for every retained
path's tuple: the returned list is exactly the found entries, the index is
unchanged, and the added events are only download, extract, the README
hand-off (if picked) and the cleanup outcome — no blob write, no index
insert. -/
lemma sync_on_synced {env : Env} {v : PackageVersion} {pkg : Package}
    {entries : List TarEntry} {fs : List PackageVersionFile} (st : St)
    (hpkg : findPackageByPackageId env v.packageId = some pkg)
    (hdl : env.downloadFault = none)
    (htar : env.tarball = Tarball.valid entries)
    (hhits : List.Forall₂ (fun p f =>
      st.index.find? (pvfMatch v.packageVersionId
        (getDirectoryAndName p).1 (getDirectoryAndName p).2) = some f)
      (retainedPaths entries) fs) :
    ∃ st',
      syncPackageVersionFiles env v st = (Except.ok fs, st') ∧
      st'.index = st.index ∧
      st'.events = st.events ++
        [Event.download (tmpdirPath env pkg v ++ ".tgz"),
         Event.extract (tmpdirPath env pkg v)] ++
        (if readmePick entries == "" then [] else
          [Event.readmeSave v.packageVersionId
            (joinPath (tmpdirPath env pkg v) (readmePick entries))]) ++
        (if env.rmFault then [Event.rmWarnLog] else []) := by
  have hhits' : List.Forall₂ (fun p f =>
      findPackageVersionFile
        (extractedState entries (tmpdirPath env pkg v)
          (downloadedState (tmpdirPath env pkg v ++ ".tgz")
            (tempDirAdded (tmpdirPath env pkg v) st))) v.packageVersionId
        (getDirectoryAndName p).1 (getDirectoryAndName p).2 = some f)
      (retainedPaths entries) fs :=
    hhits.imp (fun _ _ h => h)
  have heq := saveLoop_hits env.insertFault env.mime v (tmpdirPath env pkg v)
    hhits' []
  simp only [syncPackageVersionFiles, hpkg, syncBody, hdl, htar]
  rw [processEntries_paths]
  simp only [List.nil_append]
  rw [heq]
  dsimp only
  rw [show (processEntries entries [] "").2 = readmePick entries from rfl]
  by_cases hr : (readmePick entries == "") = true
  · have hr' : (readmePick entries != "") = false := by simp [bne, hr]
    rw [hr']
    rw [if_neg (by simp)]
    refine ⟨_, rfl, by simp, ?_⟩
    simp [hr]
  · have hr' : (readmePick entries != "") = true := by simp [bne, hr]
    rw [hr']
    rw [if_pos rfl]
    refine ⟨_, rfl, by simp, ?_⟩
    simp [hr]

/-- A fresh sync (no index entry for this version yet, pairwise-distinct
tuples): the produced entries are appended to the index in order. -/
lemma sync_fresh {env : Env} {v : PackageVersion} {pkg : Package}
    {entries : List TarEntry} (st : St)
    (hpkg : findPackageByPackageId env v.packageId = some pkg)
    (hdl : env.downloadFault = none)
    (hins : env.insertFault = none)
    (htar : env.tarball = Tarball.valid entries)
    (hstrip : ∀ e ∈ entries, retainedEntry e = true → stripFirstSegment e.path ≠ "")
    (hfresh : ∀ f ∈ st.index, f.packageVersionId ≠ v.packageVersionId)
    (hnodup : ((retainedPaths entries).map getDirectoryAndName).Nodup) :
    ∃ new st',
      syncPackageVersionFiles env v st = (Except.ok new, st') ∧
      st'.index = st.index ++ new ∧
      List.Forall₂ (tupleOk v.packageVersionId) (retainedPaths entries) new := by
  have hdisk : ∀ p ∈ retainedPaths entries,
      (readFs (extractedState entries (tmpdirPath env pkg v)
        (downloadedState (tmpdirPath env pkg v ++ ".tgz")
          (tempDirAdded (tmpdirPath env pkg v) st))).fsFiles
        (joinPath (tmpdirPath env pkg v) p)).isSome := by
    intro p hp
    exact extractedState_disk _ _ hstrip hp
  have hmiss : ∀ p ∈ retainedPaths entries,
      ∀ f ∈ (extractedState entries (tmpdirPath env pkg v)
        (downloadedState (tmpdirPath env pkg v ++ ".tgz")
          (tempDirAdded (tmpdirPath env pkg v) st))).index,
      pvfMatch v.packageVersionId (getDirectoryAndName p).1
        (getDirectoryAndName p).2 f = false := by
    intro p _ f hf
    rw [extractedState_index, downloadedState_index, tempDirAdded_index] at hf
    exact pvfMatch_false_of_vid_ne f _ _ _ (hfresh f hf)
  obtain ⟨new, stL, heq, hidx, _, hf₂⟩ :=
    saveLoop_fresh env.mime v (tmpdirPath env pkg v) (retainedPaths entries) []
      (extractedState entries (tmpdirPath env pkg v)
        (downloadedState (tmpdirPath env pkg v ++ ".tgz")
          (tempDirAdded (tmpdirPath env pkg v) st))) hdisk hmiss hnodup
  simp only [syncPackageVersionFiles, hpkg, syncBody, hdl, htar, hins]
  rw [processEntries_paths]
  simp only [List.nil_append]
  rw [heq]
  dsimp only
  rw [show (processEntries entries [] "").2 = readmePick entries from rfl]
  by_cases hr : (readmePick entries == "") = true
  · have hr' : (readmePick entries != "") = false := by simp [bne, hr]
    rw [hr']
    rw [if_neg (by simp)]
    refine ⟨new, _, rfl, ?_, hf₂⟩
    simp [hidx]
  · have hr' : (readmePick entries != "") = true := by simp [bne, hr]
    rw [hr']
    rw [if_pos rfl]
    refine ⟨new, _, rfl, ?_, hf₂⟩
    simp [hidx]

/-! ## Concrete sample scenarios used by witnesses -/

/-- Sample package. -/
def samplePkg : Package :=
  { packageId := "p1", fullname := "foo" }

/-- Sample version of the sample package. -/
def sampleVersion : PackageVersion :=
  { packageVersionId := "pv1", packageId := "p1", version := "1.0.0", publishTime := 7 }

/-- Sample tarball members: one source file and one README, both below the
conventional `package/` wrapper directory. -/
def sampleEntries : List TarEntry :=
  [{ path := "package/index.js", type := TarEntryType.file
     data := { size := 10, shasum := "s1", integrity := "i1" } },
   { path := "package/README.md", type := TarEntryType.file
     data := { size := 5, shasum := "s2", integrity := "i2" } }]

/-- Sample environment: package resolvable, valid tarball, no faults. -/
def sampleEnv : Env :=
  { packages := [("p1", samplePkg)], tarball := Tarball.valid sampleEntries
    downloadFault := none, insertFault := none, rmFault := false
    mime := fun _ => "t", uuid := "u", dataDir := "/data" }

/-- The empty starting state. -/
def emptySt : St :=
  { index := [], fsFiles := [], tempDirs := [], events := [] }

/-! ## Claims -/

/-- C9: if the owning package for the version cannot be resolved,
`syncPackageVersionFiles` returns an empty sequence without raising an
error, and the state is completely untouched — no download, extraction or
temporary-resource creation has happened. -/
theorem claim9_missing_package (env : Env) (v : PackageVersion) (st : St)
    (hpkg : findPackageByPackageId env v.packageId = none) :
    syncPackageVersionFiles env v st = (Except.ok [], st) := by
  simp [syncPackageVersionFiles, hpkg]

/-- Witness for C9: an environment with no packages at all. -/
theorem claim9_witness :
    findPackageByPackageId { sampleEnv with packages := [] } sampleVersion.packageId = none ∧
    syncPackageVersionFiles { sampleEnv with packages := [] } sampleVersion emptySt =
      (Except.ok [], emptySt) :=
  ⟨rfl, claim9_missing_package { sampleEnv with packages := [] } sampleVersion emptySt rfl⟩

/-- C3: for every structurally corrupt tarball the sync returns an empty
sequence of entries without raising, while any download failure with a
different error code propagates to the caller as fatal — the corruption
condition is distinguished by its specific `TAR_BAD_ARCHIVE` kind. -/
theorem claim3_corrupt_tarball (env : Env) (v : PackageVersion) (pkg : Package)
    (st : St)
    (hpkg : findPackageByPackageId env v.packageId = some pkg) :
    (env.tarball = Tarball.corrupt → env.downloadFault = none →
      (syncPackageVersionFiles env v st).1 = Except.ok []) ∧
    (∀ e : ErrCode, env.downloadFault = some e → e ≠ ErrCode.TAR_BAD_ARCHIVE →
      (syncPackageVersionFiles env v st).1 = Except.error e) := by
  constructor
  · intro htar hdl
    exact sync_corrupt st hpkg hdl htar
  · intro e hdl hne
    exact sync_dl_fault st hpkg hdl hne

/-- Witness for C3: a corrupt tarball yields `ok []`, and an injected
`ENOENT` download failure propagates. -/
theorem claim3_witness :
    ((syncPackageVersionFiles { sampleEnv with tarball := Tarball.corrupt }
        sampleVersion emptySt).1 = Except.ok []) ∧
    ((syncPackageVersionFiles { sampleEnv with downloadFault := some ErrCode.ENOENT }
        sampleVersion emptySt).1 = Except.error ErrCode.ENOENT) := by
  constructor
  · exact (claim3_corrupt_tarball { sampleEnv with tarball := Tarball.corrupt }
      sampleVersion samplePkg emptySt rfl).1 rfl rfl
  · exact (claim3_corrupt_tarball { sampleEnv with downloadFault := some ErrCode.ENOENT }
      sampleVersion samplePkg emptySt rfl).2 ErrCode.ENOENT rfl (by simp)

/-- C4: when the index insert inside `#savePackageVersionFile` fails with
the duplicate-key code for the unique (version, directory, name) tuple, the
conflict is swallowed and the freshly built entry is returned as if freshly
read; an insert failure with any other code propagates to the caller. -/
theorem claim4_duplicate_insert (st : St) (v : PackageVersion)
    (path lf : String) (data : FileData) (mime : String → String)
    (hfind : findPackageVersionFile st v.packageVersionId
      (getDirectoryAndName path).1 (getDirectoryAndName path).2 = none)
    (hfs : readFs st.fsFiles lf = some data) :
    savePackageVersionFile (some ErrCode.ER_DUP_ENTRY) mime v path lf st =
      (Except.ok (mkEntry mime v path data),
       { st with events := st.events ++
          [Event.blobWrite (encodeURI path) v.version] }) ∧
    (∀ e : ErrCode, e ≠ ErrCode.ER_DUP_ENTRY →
      savePackageVersionFile (some e) mime v path lf st =
        (Except.error e,
         { st with events := st.events ++
            [Event.blobWrite (encodeURI path) v.version] })) :=
  ⟨save_dup_fault mime hfind hfs, fun _ he => save_other_fault mime hfind hfs he⟩

/-- Witness for C4 at a concrete state holding `/index.js` on disk. -/
theorem claim4_witness :
    (savePackageVersionFile (some ErrCode.ER_DUP_ENTRY) (fun _ => "t")
        sampleVersion "/index.js" "/tmp/index.js"
        { emptySt with fsFiles := [("/tmp/index.js", { size := 10, shasum := "s1", integrity := "i1" })] }).1 =
      Except.ok (mkEntry (fun _ => "t") sampleVersion "/index.js"
        { size := 10, shasum := "s1", integrity := "i1" }) ∧
    (savePackageVersionFile (some (ErrCode.other "disk full")) (fun _ => "t")
        sampleVersion "/index.js" "/tmp/index.js"
        { emptySt with fsFiles := [("/tmp/index.js", { size := 10, shasum := "s1", integrity := "i1" })] }).1 =
      Except.error (ErrCode.other "disk full") := by
  have h := claim4_duplicate_insert
    { emptySt with fsFiles := [("/tmp/index.js", { size := 10, shasum := "s1", integrity := "i1" })] }
    sampleVersion "/index.js" "/tmp/index.js"
    { size := 10, shasum := "s1", integrity := "i1" } (fun _ => "t") rfl rfl
  exact ⟨by rw [h.1], by rw [h.2 (ErrCode.other "disk full") (by simp)]⟩

/-- C6: path normalization — every retained member contributes its path
with the first segment stripped and a `/` prefix to the manifest, and the
directory/name split follows POSIX dirname/basename semantics:
`package/dir/sub/file.js` yields directory `/dir/sub` and name `file.js`,
and a root member `/a.txt` yields directory `/` and name `a.txt`. -/
theorem claim6_path_normalization :
    (∀ entries : List TarEntry, (processEntries entries [] "").1 =
      (entries.filter retainedEntry).map (fun e => "/" ++ stripFirstSegment e.path)) ∧
    "/" ++ stripFirstSegment "package/dir/sub/file.js" = "/dir/sub/file.js" ∧
    getDirectoryAndName "/dir/sub/file.js" = ("/dir/sub", "file.js") ∧
    getDirectoryAndName "/a.txt" = ("/", "a.txt") := by
  refine ⟨?_, by decide, by decide, by decide⟩
  intro entries
  rw [processEntries_paths entries [] ""]
  simp [retainedPaths]

/-- C8: the blob's external path key is the percent-encoded form of the
member path while the index entry keeps the decoded directory and name; in
particular a path containing the literal `χ` is stored under its UTF-8
percent-encoded form. -/
theorem claim8_encoded_blob_path (st : St) (v : PackageVersion)
    (path lf : String) (data : FileData) (mime : String → String)
    (hfind : findPackageVersionFile st v.packageVersionId
      (getDirectoryAndName path).1 (getDirectoryAndName path).2 = none)
    (hfs : readFs st.fsFiles lf = some data) :
    savePackageVersionFile none mime v path lf st =
      (Except.ok (mkEntry mime v path data),
       { st with
         index := st.index ++ [mkEntry mime v path data]
         events := st.events ++
           [Event.blobWrite (encodeURI path) v.version,
            Event.indexInsert v.packageVersionId
              (getDirectoryAndName path).1 (getDirectoryAndName path).2] }) ∧
    (mkEntry mime v path data).dist.path = encodeURI path ∧
    (mkEntry mime v path data).directory = posixDirname path ∧
    (mkEntry mime v path data).name = posixBasename path ∧
    encodeURI "/resource/ToOneFromχ.js" = "/resource/ToOneFrom%CF%87.js" ∧
    posixBasename "/resource/ToOneFromχ.js" = "ToOneFromχ.js" :=
  ⟨save_miss mime hfind hfs, rfl, rfl, rfl, by decide, by decide⟩

/-- Witness for C8 at the χ path. -/
theorem claim8_witness :
    (savePackageVersionFile none (fun _ => "t") sampleVersion
        "/resource/ToOneFromχ.js" "/tmp/x"
        { emptySt with fsFiles := [("/tmp/x", { size := 3, shasum := "sχ", integrity := "iχ" })] }).1 =
      Except.ok (mkEntry (fun _ => "t") sampleVersion "/resource/ToOneFromχ.js"
        { size := 3, shasum := "sχ", integrity := "iχ" }) ∧
    (mkEntry (fun _ => "t") sampleVersion "/resource/ToOneFromχ.js"
        { size := 3, shasum := "sχ", integrity := "iχ" }).dist.path =
      "/resource/ToOneFrom%CF%87.js" ∧
    (mkEntry (fun _ => "t") sampleVersion "/resource/ToOneFromχ.js"
        { size := 3, shasum := "sχ", integrity := "iχ" }).name = "ToOneFromχ.js" := by
  have h := claim8_encoded_blob_path
    { emptySt with fsFiles := [("/tmp/x", { size := 3, shasum := "sχ", integrity := "iχ" })] }
    sampleVersion "/resource/ToOneFromχ.js" "/tmp/x"
    { size := 3, shasum := "sχ", integrity := "iχ" } (fun _ => "t") rfl rfl
  refine ⟨by rw [h.1], ?_, by decide⟩
  rw [h.2.1]
  decide

/-- A tarball whose single file member sits at the archive root, with no
wrapper directory: stripping its first (only) path segment leaves the empty
name, so the manifest path degenerates to `/`. -/
def bareEntries : List TarEntry :=
  [{ path := "a.js", type := TarEntryType.file
     data := { size := 4, shasum := "sb", integrity := "ib" } }]

/-- C1 counterexample: a valid, non-corrupt tarball with one distinct,
non-hidden file member `a.js` (no wrapper directory).  The claim promises
one index entry; instead the stat/integrity step of the materializer fails
on the degenerate `/` path and the sync surfaces a fatal error: no `ok`
result with one entry exists. -/
theorem claim1_counterexample :
    (bareEntries.map TarEntry.path).Nodup ∧
    (∀ e ∈ bareEntries, containsHiddenDir e.path = false) ∧
    (∀ e ∈ bareEntries, e.type = TarEntryType.file) ∧
    (syncPackageVersionFiles { sampleEnv with tarball := Tarball.valid bareEntries }
      sampleVersion emptySt).1 = Except.error ErrCode.ENOENT := by
  refine ⟨by decide, by decide, by decide, rfl⟩

/-- C1 (amended): for every valid tarball whose distinct, non-hidden file
members all lie below the conventional top-level wrapper directory (their
stripped names are non-empty), the sync returns exactly one entry per
retained member, in extraction order, each keyed by the POSIX split of the
member's stripped `/`-prefixed path. -/
theorem claim1_entry_per_member (env : Env) (v : PackageVersion)
    (pkg : Package) (entries : List TarEntry) (st : St)
    (hpkg : findPackageByPackageId env v.packageId = some pkg)
    (hdl : env.downloadFault = none)
    (hins : env.insertFault = none)
    (htar : env.tarball = Tarball.valid entries)
    (hdistinct : (entries.map TarEntry.path).Nodup)
    (hwrapped : ∀ e ∈ entries, retainedEntry e = true → stripFirstSegment e.path ≠ "") :
    ∃ files st',
      syncPackageVersionFiles env v st = (Except.ok files, st') ∧
      files.length = (entries.filter retainedEntry).length ∧
      List.Forall₂ (tupleOk v.packageVersionId) (retainedPaths entries) files := by
  obtain ⟨files, st', les, heq, hf₂, _, _⟩ := sync_ok st hpkg hdl hins htar hwrapped
  refine ⟨files, st', heq, ?_, hf₂⟩
  have hlen := hf₂.length_eq
  rw [retainedPaths, List.length_map] at hlen
  exact hlen.symm

/-- Witness for the amended C1: the two-member sample tarball produces
exactly two entries. -/
theorem claim1_witness :
    ∃ files st',
      syncPackageVersionFiles sampleEnv sampleVersion emptySt =
        (Except.ok files, st') ∧ files.length = 2 := by
  obtain ⟨files, st', heq, hlen, _⟩ :=
    claim1_entry_per_member sampleEnv sampleVersion samplePkg sampleEntries
      emptySt rfl rfl rfl rfl (by decide) (by decide)
  exact ⟨files, st', heq, by rw [hlen]; decide⟩

/-- C2: materialization is idempotent.  First, `#savePackageVersionFile`
returns an existing (version, directory, name) entry unchanged, with the
state untouched (no stat, no blob store write, no insert).  Second, syncing
a version twice returns the same entry list the second time, with the index
unchanged and zero additional content-blob writes. -/
theorem claim2_idempotent (env : Env) (v : PackageVersion) (pkg : Package)
    (entries : List TarEntry) (st : St)
    (hpkg : findPackageByPackageId env v.packageId = some pkg)
    (hdl : env.downloadFault = none)
    (hins : env.insertFault = none)
    (htar : env.tarball = Tarball.valid entries)
    (hwrapped : ∀ e ∈ entries, retainedEntry e = true → stripFirstSegment e.path ≠ "")
    (hfresh : ∀ f ∈ st.index, f.packageVersionId ≠ v.packageVersionId)
    (hnodup : ((retainedPaths entries).map getDirectoryAndName).Nodup) :
    (∀ (st₀ : St) (ifault : Option ErrCode) (mime : String → String)
       (path lf : String) (f : PackageVersionFile),
       findPackageVersionFile st₀ v.packageVersionId
         (getDirectoryAndName path).1 (getDirectoryAndName path).2 = some f →
       savePackageVersionFile ifault mime v path lf st₀ = (Except.ok f, st₀)) ∧
    ∃ files st₁ st₂,
      syncPackageVersionFiles env v st = (Except.ok files, st₁) ∧
      syncPackageVersionFiles env v st₁ = (Except.ok files, st₂) ∧
      st₂.index = st₁.index ∧
      st₂.events.countP isBlobWrite = st₁.events.countP isBlobWrite := by
  refine ⟨fun _ ifault mime _ _ _ h => save_hit ifault mime h, ?_⟩
  obtain ⟨new, st₁, heq₁, hidx₁, hf₂⟩ :=
    sync_fresh st hpkg hdl hins htar hwrapped hfresh hnodup
  have hbase := findEntry_of_tupleOk hf₂ hnodup
  have hhits : List.Forall₂ (fun p f =>
      st₁.index.find? (pvfMatch v.packageVersionId
        (getDirectoryAndName p).1 (getDirectoryAndName p).2) = some f)
      (retainedPaths entries) new := by
    refine hbase.imp ?_
    intro p f h
    rw [hidx₁,
      find_append_of_none (fun g hg => pvfMatch_false_of_vid_ne g _ _ _ (hfresh g hg))]
    exact h
  obtain ⟨st₂, heq₂, hidx₂, hev₂⟩ := sync_on_synced st₁ hpkg hdl htar hhits
  refine ⟨new, st₁, st₂, heq₁, heq₂, hidx₂, ?_⟩
  rw [hev₂]
  by_cases hr : (readmePick entries == "") = true <;>
    by_cases hb : env.rmFault = true <;>
      simp [hr, hb, List.countP_append, List.countP_cons, isBlobWrite]

/-- Witness for C2 on the sample scenario. -/
theorem claim2_witness :
    ∃ files st₁ st₂,
      syncPackageVersionFiles sampleEnv sampleVersion emptySt =
        (Except.ok files, st₁) ∧
      syncPackageVersionFiles sampleEnv sampleVersion st₁ =
        (Except.ok files, st₂) ∧
      st₂.events.countP isBlobWrite = st₁.events.countP isBlobWrite := by
  obtain ⟨_, files, st₁, st₂, h1, h2, _, h4⟩ :=
    claim2_idempotent sampleEnv sampleVersion samplePkg sampleEntries emptySt
      rfl rfl rfl rfl (by decide) (by decide) (by decide)
  exact ⟨files, st₁, st₂, h1, h2, h4⟩

/-- C5: on every exit path after the temporaries exist, cleanup runs before
control returns — when `fs.rm` works, neither the temporary tarball file
nor anything under the working directory survives in the final state — and
a cleanup failure is only logged: it never changes the operation's primary
result, only appends the warn-log event. -/
theorem claim5_cleanup (env : Env) (v : PackageVersion) (pkg : Package)
    (st : St)
    (hpkg : findPackageByPackageId env v.packageId = some pkg) :
    (env.rmFault = false →
      tmpdirPath env pkg v ∉ (syncPackageVersionFiles env v st).2.tempDirs ∧
      (∀ k d, (k, d) ∈ (syncPackageVersionFiles env v st).2.fsFiles →
        k ≠ tmpdirPath env pkg v ++ ".tgz" ∧
        k.startsWith (tmpdirPath env pkg v ++ "/") = false)) ∧
    (syncPackageVersionFiles env v st).1 =
      (syncPackageVersionFiles { env with rmFault := false } v st).1 ∧
    (env.rmFault = true →
      (syncPackageVersionFiles env v st).2.events =
        (syncPackageVersionFiles { env with rmFault := false } v st).2.events ++
          [Event.rmWarnLog]) := by
  have hpkg' : findPackageByPackageId { env with rmFault := false } v.packageId =
    some pkg := hpkg
  rcases hB : syncBody env v (tmpdirPath env pkg v)
      (tmpdirPath env pkg v ++ ".tgz")
      (tempDirAdded (tmpdirPath env pkg v) st) with ⟨res, files, stB⟩
  have hB' : syncBody { env with rmFault := false } v
      (tmpdirPath { env with rmFault := false } pkg v)
      (tmpdirPath { env with rmFault := false } pkg v ++ ".tgz")
      (tempDirAdded (tmpdirPath { env with rmFault := false } pkg v) st) =
      (res, files, stB) := hB
  refine ⟨?_, ?_, ?_⟩
  · intro hrm
    simp only [syncPackageVersionFiles, hpkg, hB, hrm]
    constructor
    · simp [cleanupTemp, List.mem_filter]
    · intro k d hk
      simp only [cleanupTemp, Bool.false_eq_true, if_false, List.mem_filter,
        Bool.and_eq_true, bne_iff_ne, Bool.not_eq_true'] at hk
      exact ⟨hk.2.1.1, hk.2.1.2⟩
  · simp only [syncPackageVersionFiles, hpkg, hpkg', hB, hB']
  · intro hrm
    simp only [syncPackageVersionFiles, hpkg, hpkg', hB, hB', hrm]
    simp [cleanupTemp]

/-- Witness for C5: temporaries are gone after the sample sync, and with a
failing `fs.rm` the result is unchanged while only the warn log appears. -/
theorem claim5_witness :
    tmpdirPath sampleEnv samplePkg sampleVersion ∉
      (syncPackageVersionFiles sampleEnv sampleVersion emptySt).2.tempDirs ∧
    (syncPackageVersionFiles { sampleEnv with rmFault := true }
        sampleVersion emptySt).1 =
      (syncPackageVersionFiles
        { { sampleEnv with rmFault := true } with rmFault := false }
        sampleVersion emptySt).1 ∧
    (syncPackageVersionFiles { sampleEnv with rmFault := true }
        sampleVersion emptySt).2.events =
      (syncPackageVersionFiles
        { { sampleEnv with rmFault := true } with rmFault := false }
        sampleVersion emptySt).2.events ++ [Event.rmWarnLog] :=
  ⟨((claim5_cleanup sampleEnv sampleVersion samplePkg emptySt rfl).1 rfl).1,
   (claim5_cleanup { sampleEnv with rmFault := true } sampleVersion samplePkg
     emptySt rfl).2.1,
   (claim5_cleanup { sampleEnv with rmFault := true } sampleVersion samplePkg
     emptySt rfl).2.2 rfl⟩

/-- C7: README selection — the recorded README member is the first stripped
member name (in archive entry order) matching one of the three literal
candidates, later matches being ignored; and when one was identified, it is
handed to the README-persistence collaborator exactly once, as the last
step after every file has been materialized. -/
theorem claim7_readme (env : Env) (v : PackageVersion) (pkg : Package)
    (entries : List TarEntry) (st : St)
    (hpkg : findPackageByPackageId env v.packageId = some pkg)
    (hdl : env.downloadFault = none)
    (hins : env.insertFault = none)
    (htar : env.tarball = Tarball.valid entries)
    (hwrapped : ∀ e ∈ entries, retainedEntry e = true → stripFirstSegment e.path ≠ "")
    (hrm : env.rmFault = false) :
    readmePick entries =
      ((((entries.filter retainedEntry).map
          (fun e => stripFirstSegment e.path)).find? isReadmeCandidate).getD "") ∧
    (readmePick entries ≠ "" →
      ∃ files st' les,
        syncPackageVersionFiles env v st = (Except.ok files, st') ∧
        (∀ ev ∈ les, isMaterializeEvent ev = true) ∧
        (∀ a b, Event.readmeSave a b ∉ les) ∧
        st'.events = st.events ++
          [Event.download (tmpdirPath env pkg v ++ ".tgz"),
           Event.extract (tmpdirPath env pkg v)] ++ les ++
          [Event.readmeSave v.packageVersionId
            (joinPath (tmpdirPath env pkg v) (readmePick entries))]) := by
  refine ⟨readmePick_eq entries, ?_⟩
  intro hne
  obtain ⟨files, st', les, heq, _, hmat, hev⟩ := sync_ok st hpkg hdl hins htar hwrapped
  refine ⟨files, st', les, heq, hmat, ?_, ?_⟩
  · intro a b hmem
    have := hmat _ hmem
    simp [isMaterializeEvent] at this
  · rw [hev, hrm]
    have hne' : (readmePick entries == "") = false := by simp [hne]
    rw [hne']
    simp

/-- Witness for C7: the sample tarball's README pick and the README event
closing the trace. -/
theorem claim7_witness :
    readmePick sampleEntries = "README.md" ∧
    ∃ files st' les,
      syncPackageVersionFiles sampleEnv sampleVersion emptySt =
        (Except.ok files, st') ∧
      st'.events = emptySt.events ++
        [Event.download (tmpdirPath sampleEnv samplePkg sampleVersion ++ ".tgz"),
         Event.extract (tmpdirPath sampleEnv samplePkg sampleVersion)] ++ les ++
        [Event.readmeSave sampleVersion.packageVersionId
          (joinPath (tmpdirPath sampleEnv samplePkg sampleVersion)
            (readmePick sampleEntries))] := by
  have h := claim7_readme sampleEnv sampleVersion samplePkg sampleEntries emptySt
    rfl rfl rfl rfl (by decide) rfl
  obtain ⟨files, st', les, heq, _, _, hev⟩ := h.2 (by decide)
  exact ⟨by decide, files, st', les, heq, hev⟩

/-- Index-insert recognizer, for counting index writes. -/
def isIndexInsert : Event → Bool
  | Event.indexInsert _ _ _ => true
  | _ => false

/-- C10: the has-files short-circuit lives only in the lazy trigger.  When
the index already has entries for the version, `listPackageVersionFiles`
and `showPackageVersionFile` answer directly from the index without any
sync side effect; when it has none, the trigger's state is the sync's
state.  A direct `syncPackageVersionFiles` call on an already-synced
version still performs the download and extraction side effects, yet
returns the existing entries with no new index inserts or blob writes. -/
theorem claim10_short_circuit (env : Env) (v : PackageVersion) (pkg : Package)
    (entries : List TarEntry) (dir path : String) (st : St)
    (fs : List PackageVersionFile)
    (hpkg : findPackageByPackageId env v.packageId = some pkg)
    (hdl : env.downloadFault = none)
    (htar : env.tarball = Tarball.valid entries)
    (hhas : hasPackageVersionFiles st v.packageVersionId = true)
    (hhits : List.Forall₂ (fun p f =>
      st.index.find? (pvfMatch v.packageVersionId
        (getDirectoryAndName p).1 (getDirectoryAndName p).2) = some f)
      (retainedPaths entries) fs) :
    listPackageVersionFiles env v dir st =
      (Except.ok (listPackageVersionFilesRepo st v.packageVersionId dir), st) ∧
    showPackageVersionFile env v path st =
      (Except.ok (findPackageVersionFile st v.packageVersionId
        (getDirectoryAndName path).1 (getDirectoryAndName path).2), st) ∧
    (∀ st₀ : St, hasPackageVersionFiles st₀ v.packageVersionId = false →
      (ensurePackageVersionFilesSync env v st₀).2 =
        (syncPackageVersionFiles env v st₀).2) ∧
    ∃ st',
      syncPackageVersionFiles env v st = (Except.ok fs, st') ∧
      st'.index = st.index ∧
      Event.download (tmpdirPath env pkg v ++ ".tgz") ∈ st'.events ∧
      Event.extract (tmpdirPath env pkg v) ∈ st'.events ∧
      st'.events.countP isBlobWrite = st.events.countP isBlobWrite ∧
      st'.events.countP isIndexInsert = st.events.countP isIndexInsert := by
  refine ⟨?_, ?_, ?_, ?_⟩
  · simp [listPackageVersionFiles, ensurePackageVersionFilesSync, hhas]
  · simp [showPackageVersionFile, ensurePackageVersionFilesSync, hhas]
  · intro st₀ hnot
    simp only [ensurePackageVersionFilesSync, hnot, Bool.false_eq_true, if_false]
    rcases h : syncPackageVersionFiles env v st₀ with ⟨res, s⟩
    cases res <;> rfl
  · obtain ⟨st', heq, hidx, hev⟩ := sync_on_synced st hpkg hdl htar hhits
    refine ⟨st', heq, hidx, ?_, ?_, ?_, ?_⟩
    · rw [hev]; simp
    · rw [hev]; simp
    · rw [hev]
      by_cases hr : (readmePick entries == "") = true <;>
        by_cases hb : env.rmFault = true <;>
          simp [hr, hb, List.countP_append, List.countP_cons, isBlobWrite]
    · rw [hev]
      by_cases hr : (readmePick entries == "") = true <;>
        by_cases hb : env.rmFault = true <;>
          simp [hr, hb, List.countP_append, List.countP_cons, isIndexInsert]

/-- Entries of the sample tarball as they sit in the index after a sync. -/
def sampleFiles : List PackageVersionFile :=
  [{ packageVersionId := "pv1", directory := "/", name := "index.js"
     dist := { path := "/index.js", version := "1.0.0", size := 10
               shasum := "s1", integrity := "i1" }
     contentType := "t", mtime := 7 },
   { packageVersionId := "pv1", directory := "/", name := "README.md"
     dist := { path := "/README.md", version := "1.0.0", size := 5
               shasum := "s2", integrity := "i2" }
     contentType := "t", mtime := 7 }]

/-- A state whose index already holds the sample version's files. -/
def syncedSt : St :=
  { index := sampleFiles, fsFiles := [], tempDirs := [], events := [] }

/-- Witness for C10 on the already-synced sample state. -/
theorem claim10_witness :
    hasPackageVersionFiles syncedSt sampleVersion.packageVersionId = true ∧
    listPackageVersionFiles sampleEnv sampleVersion "/" syncedSt =
      (Except.ok (listPackageVersionFilesRepo syncedSt
        sampleVersion.packageVersionId "/"), syncedSt) ∧
    ∃ st',
      syncPackageVersionFiles sampleEnv sampleVersion syncedSt =
        (Except.ok sampleFiles, st') ∧
      st'.index = syncedSt.index ∧
      st'.events.countP isBlobWrite = syncedSt.events.countP isBlobWrite := by
  have h := claim10_short_circuit sampleEnv sampleVersion samplePkg sampleEntries
    "/" "/index.js" syncedSt sampleFiles rfl rfl rfl (by decide)
    (List.Forall₂.cons rfl (List.Forall₂.cons rfl List.Forall₂.nil))
  obtain ⟨h1, _, _, st', heq, hidx, _, _, hblob, _⟩ := h
  exact ⟨by decide, h1, st', heq, hidx, hblob⟩

end PkgVerFileSvc
